import Mathlib

/-!
Verification of the spice-spice-baby recipe-extraction pipeline.

This file shallowly embeds the decision logic of the repository's core
(`src/services/email-parser.ts`, `src/services/claude.ts`, `src/index.ts`)
as executable Lean definitions and proves/refutes the specification's claims
about it.  JavaScript strings are modelled as `String` / `List Char`
(UTF-16 code-unit subtleties are not relevant to any claim), JS objects produced by `JSON.parse` as an inductive `Json` type,
and functions that can throw as `Except`-valued functions.
-/

namespace SpiceBaby

/-! ## Generic JS-string helpers (List Char model) -/

/-- Lower-casing, modelling `String.prototype.toLowerCase` (ASCII-faithful). -/
def lowerL (l : List Char) : List Char := l.map Char.toLower

/-- `isPrefixL p l` : `p` is a prefix of `l` (Boolean). -/
def isPrefixL : List Char → List Char → Bool
  | [], _ => true
  | _ :: _, [] => false
  | p :: ps, c :: cs => p = c && isPrefixL ps cs

/-- `containsL hay pat` : `pat` occurs as a contiguous substring of `hay`,
modelling `String.prototype.includes`. -/
def containsL (hay pat : List Char) : Bool :=
  match hay with
  | [] => isPrefixL pat []
  | _ :: rest => isPrefixL pat hay || containsL rest pat

/-- ASCII decimal digit test (the regex class `\d`). -/
def isDigitC (c : Char) : Bool := '0' ≤ c && c ≤ '9'

/-- Value of a string of decimal digits. -/
def digitsToNat (ds : List Char) : Nat :=
  ds.foldl (fun acc c => acc * 10 + (c.toNat - '0'.toNat)) 0

/-! ## Data model (`src/types.ts`)

`ExtractedRecipe` is the canonical record produced by every extraction
strategy; `image_url` is optional (`image_url?: string`). -/

structure ExtractedRecipe where
  name : String
  ingredients : String
  directions : String
  prep_time : String
  cook_time : String
  servings : String
  source : String
  source_url : String
  notes : String
  image_url : Option String := none
deriving DecidableEq, Repr

/-! ## The email pipeline's sink gate (`src/index.ts`, `saveRecipe`)

```ts
if (recipe.name === 'UNREADABLE' || recipe.name === 'NO_RECIPE') {
  results.push({ success: false,
    error: `Could not extract recipe from ...: ...` });
  return;
}
const { name: recipeName } = await paprika.createRecipe(recipe);
```

The helper either records a failure (never touching the sink) or invokes the
recipe-manager sink's create operation, exactly one of the two; we model that
choice as an inductive action. -/

inductive SaveAction where
  | recordFailure (error : String)
  | invokeSink (recipe : ExtractedRecipe)
deriving DecidableEq, Repr

/-- Embedding of `saveRecipe` from `src/index.ts` (lines 40-54): the decision
between recording a soft failure and calling `paprika.createRecipe`. -/
def saveRecipe (recipe : ExtractedRecipe) (sourceDesc : String) : SaveAction :=
  if recipe.name = "UNREADABLE" ∨ recipe.name = "NO_RECIPE" then
    .recordFailure ("Could not extract recipe from " ++ sourceDesc ++ ": " ++ recipe.notes)
  else
    .invokeSink recipe

/-! ## Duration formatting (`src/services/claude.ts`, `formatDuration`)

```ts
if (!duration) return '';
const match = duration.match(/PT(?:(\d+)H)?(?:(\d+)M)?/);
if (!match) return duration;
...
```

The regex has a mandatory literal `PT` and two optional groups, so it matches
exactly when `PT` occurs somewhere in the string, at the leftmost such
occurrence; at that point each group greedily takes a digit run followed by
its literal marker.  `ptMatch` embeds that matching behaviour. -/

/-- One optional regex group `(?:(\d+)X)?` at the current position: if a
non-empty digit run immediately followed by the marker is present, return its
value and the remainder past the marker; otherwise the group is skipped.
(No other backtracking can occur: the marker letters are not digits.) -/
def matchGroup (marker : Char) (l : List Char) : Nat × List Char :=
  let ds := l.takeWhile isDigitC
  match l.drop ds.length with
  | c :: rs => if ds ≠ [] && c = marker then (digitsToNat ds, rs) else (0, l)
  | [] => (0, l)

/-- Leftmost match of `/PT(?:(\d+)H)?(?:(\d+)M)?/`: hour and minute values
(0 when the group did not participate), or `none` when `PT` never occurs. -/
def ptMatch : List Char → Option (Nat × Nat)
  | [] => none
  | c :: rest =>
    if isPrefixL ['P', 'T'] (c :: rest) then
      let after := rest.drop 1
      let (h, after2) := matchGroup 'H' after
      let (m, _) := matchGroup 'M' after2
      some (h, m)
    else ptMatch rest

/-- Embedding of `formatDuration` (claude.ts lines 475-486).  Note the source
returns the *input unchanged* when the regex fails (`if (!match) return
duration;`), not the empty string. -/
def formatDuration (duration : String) : String :=
  if duration = "" then ""
  else
    match ptMatch duration.toList with
    | none => duration
    | some (hours, minutes) =>
      if hours ≠ 0 ∧ minutes ≠ 0 then
        toString hours ++ " hour" ++ (if hours > 1 then "s" else "") ++ " "
          ++ toString minutes ++ " min"
      else if hours ≠ 0 then
        toString hours ++ " hour" ++ (if hours > 1 then "s" else "")
      else if minutes ≠ 0 then
        toString minutes ++ " min"
      else ""

/-! ## HTML truncation for the generative fallback (`extractFromURL`)

```ts
const truncatedHtml = html.length > 50000 ? html.substring(0, 50000) + '...' : html;
``` -/

def TRUNCATION_BOUND : Nat := 50000

/-- The in-band truncation marker appended by `extractFromURL`. -/
def truncationMarker : List Char := ['.', '.', '.']

/-- Embedding of the `truncatedHtml` computation (claude.ts line 351). -/
def truncatedHtml (html : List Char) : List Char :=
  if html.length > TRUNCATION_BOUND then html.take TRUNCATION_BOUND ++ truncationMarker
  else html

/-! ## The recipe normalizer (`src/services/claude.ts`, `validateRecipe`)

`validateRecipe` receives a value freshly produced by `JSON.parse` and cast to
`ExtractedRecipe`, so each field may be absent; the claim is stated over
partially populated recipe objects, modelled with `Option String` fields.
Every default is applied with JS `||`, for which the *empty string is falsy*,
exactly like an absent field. -/

structure PartialRecipe where
  name : Option String := none
  ingredients : Option String := none
  directions : Option String := none
  prep_time : Option String := none
  cook_time : Option String := none
  servings : Option String := none
  source : Option String := none
  source_url : Option String := none
  notes : Option String := none
  image_url : Option String := none
deriving DecidableEq, Repr

/-- JS `x || dflt` for an optional string field: absent and `""` are both
falsy. -/
def jsOrStr (v : Option String) (dflt : String) : String :=
  match v with
  | some s => if s = "" then dflt else s
  | none => dflt

theorem jsOrStr_none (d : String) : jsOrStr none d = d := rfl

theorem jsOrStr_some_empty (d : String) : jsOrStr (some "") d = d := by
  simp [jsOrStr]

theorem jsOrStr_some (s d : String) (hs : s ≠ "") : jsOrStr (some s) d = s := by
  simp [jsOrStr, hs]

/-- Embedding of `validateRecipe` (claude.ts lines 543-556).  `image_url`
uses `recipe.image_url || undefined`, collapsing `""` to absent. -/
def validateRecipe (recipe : PartialRecipe) : ExtractedRecipe :=
  { name := jsOrStr recipe.name "Untitled Recipe"
    ingredients := jsOrStr recipe.ingredients ""
    directions := jsOrStr recipe.directions ""
    prep_time := jsOrStr recipe.prep_time ""
    cook_time := jsOrStr recipe.cook_time ""
    servings := jsOrStr recipe.servings ""
    source := jsOrStr recipe.source ""
    source_url := jsOrStr recipe.source_url ""
    notes := jsOrStr recipe.notes ""
    image_url := match recipe.image_url with
      | some s => if s = "" then none else some s
      | none => none }

/-! ## URL extraction and classification (`src/services/email-parser.ts`)

The body scan uses `URL_PATTERN = /https?:\/\/[^\s<>"{}|\\^`\[\]]+/gi`;
every match is stripped of trailing punctuation, deduplicated by exact
cleaned string, then classified: `detectVideoPlatform` first (video bucket),
otherwise `isLikelyRecipeUrl` (url bucket or silently dropped). -/

/-- The JS regex whitespace class `\s` (the members that can occur here). -/
def isJsSpace (c : Char) : Bool :=
  c = ' ' || c = '\t' || c = '\n' || c = '\r' || c = '\x0b' || c = '\x0c'

/-- The negated character class of `URL_PATTERN`. -/
def isUrlChar (c : Char) : Bool :=
  !(isJsSpace c || c = '<' || c = '>' || c = '\"' || c = '\x7b' || c = '\x7d' ||
    c = '|' || c = '\\' || c = '^' || c = '\x60' || c = '[' || c = ']')

/-- Length of the scheme part `https?:\/\/` matched case-insensitively at the
head of `l` (7 or 8), or `none` when the regex cannot match here.  When an
`s` is present it must be followed by `://` — the regex cannot backtrack into
a successful match of `http` followed by `://` because `s ≠ :`. -/
def schemeLen (l : List Char) : Option Nat :=
  match l with
  | a :: b :: c :: d :: rest =>
    if a.toLower = 'h' && b.toLower = 't' && c.toLower = 't' && d.toLower = 'p' then
      match rest with
      | e :: rest2 =>
        if e.toLower = 's' then
          match rest2 with
          | f :: g :: h :: _ => if f = ':' && g = '/' && h = '/' then some 8 else none
          | _ => none
        else
          match rest with
          | f :: g :: h :: _ => if f = ':' && g = '/' && h = '/' then some 7 else none
          | _ => none
      | [] => none
    else none
  | _ => none

/-- One match attempt of `URL_PATTERN` at the current position: the scheme
followed by a non-empty greedy run of URL characters.  Returns the matched
text and the remainder of the input. -/
def tryMatchUrl (l : List Char) : Option (List Char × List Char) :=
  match schemeLen l with
  | none => none
  | some n =>
    let afterScheme := l.drop n
    let run := afterScheme.takeWhile isUrlChar
    if run.isEmpty then none
    else some (l.take n ++ run, afterScheme.drop run.length)

/-- Global scan of `URL_PATTERN` over the body (fuelled; each step consumes
at least one character, so `fuel = length` always suffices). -/
def scanUrlsAux : Nat → List Char → List (List Char)
  | 0, _ => []
  | _, [] => []
  | Nat.succ fuel, c :: rest =>
    match tryMatchUrl (c :: rest) with
    | some (url, rest') => url :: scanUrlsAux fuel rest'
    | none => scanUrlsAux fuel rest

/-- `bodyText.match(URL_PATTERN) || []` -/
def scanUrls (body : List Char) : List (List Char) := scanUrlsAux body.length body

/-- The trailing-punctuation class of `url.replace(/[.,;:!?)\]]+$/, '')`. -/
def isTrailingPunct (c : Char) : Bool :=
  c = '.' || c = ',' || c = ';' || c = ':' || c = '!' || c = '?' || c = ')' || c = ']'

/-- Trailing-punctuation cleanup of a matched URL. -/
def cleanUrl (l : List Char) : List Char :=
  (l.reverse.dropWhile isTrailingPunct).reverse

/-- `RECIPE_DOMAINS` (email-parser.ts lines 22-52). -/
def RECIPE_DOMAINS : List (List Char) :=
  ["allrecipes.com".toList, "foodnetwork.com".toList, "epicurious.com".toList,
   "bonappetit.com".toList, "seriouseats.com".toList, "simplyrecipes.com".toList,
   "budgetbytes.com".toList, "delish.com".toList, "tasty.co".toList,
   "food52.com".toList, "cookinglight.com".toList, "myrecipes.com".toList,
   "tasteofhome.com".toList, "kingarthurbaking.com".toList, "smittenkitchen.com".toList,
   "minimalistbaker.com".toList, "thekitchn.com".toList, "recipetineats.com".toList,
   "halfbakedharvest.com".toList, "pinchofyum.com".toList, "damndelicious.net".toList,
   "therecipecritic.com".toList, "gimmesomeoven.com".toList, "cafedelites.com".toList,
   "hostthetoast.com".toList, "skinnytaste.com".toList, "wellplated.com".toList,
   "cookieandkate.com".toList, "loveandlemons.com".toList]

/-- `skipPatterns` of `isLikelyRecipeUrl` (email-parser.ts lines 202-227). -/
def skipPatterns : List (List Char) :=
  ["unsubscribe".toList, "mailto:".toList, "javascript:".toList,
   "facebook.com".toList, "twitter.com".toList, "instagram.com".toList,
   "pinterest.com".toList, "youtube.com".toList, "tiktok.com".toList,
   "linkedin.com".toList, "apple.com".toList, "google.com/search".toList,
   "amazon.com".toList, ".css".toList, ".js".toList, ".png".toList,
   ".jpg".toList, ".gif".toList, "privacy".toList, "terms".toList,
   "login".toList, "signup".toList, "cart".toList, "checkout".toList]

/-- `recipeKeywords` of `isLikelyRecipeUrl` (line 239). -/
def recipeKeywords : List (List Char) :=
  ["recipe".toList, "cook".toList, "bake".toList, "food".toList,
   "dish".toList, "meal".toList, "ingredient".toList]

inductive VideoPlatform where
  | tiktok
  | instagram
deriving DecidableEq, Repr

/-- Embedding of `detectVideoPlatform` (email-parser.ts lines 177-193);
`lowerL url` inlines the local `lowerUrl`. -/
def detectVideoPlatform (url : List Char) : Option VideoPlatform :=
  if containsL (lowerL url) "tiktok.com".toList
      || containsL (lowerL url) "vm.tiktok.com".toList then
    some .tiktok
  else if containsL (lowerL url) "instagram.com/reel/".toList
      || containsL (lowerL url) "instagram.com/p/".toList
      || containsL (lowerL url) "instagram.com/tv/".toList then
    some .instagram
  else none

/-- `pathname.split('/')` : JS `String.prototype.split` on a single
character. -/
def splitOnChar (sep : Char) (l : List Char) : List (List Char) :=
  l.foldr
    (fun c acc =>
      match acc with
      | [] => [[c]]
      | g :: gs => if c = sep then [] :: g :: gs else (c :: g) :: gs)
    [[]]

/-- Partial model of the WHATWG URL parser as invoked by `new URL(url)` in
`isLikelyRecipeUrl`: for an absolute `http(s)://` URL it returns the
pathname; it fails — the constructor throws — when the input has no
scheme-plus-`://` head or an empty authority (WHATWG mandates failure for a
special scheme with an empty host, e.g. `new URL("http://")`).  The real
parser rejects strictly more inputs (invalid ports, numeric-host overflow),
so the positive theorems only ever *assume* success of an abstract parse
function rather than asserting success of this model. -/
def newURLPathname (url : List Char) : Option (List Char) :=
  match schemeLen url with
  | none => none
  | some n =>
    let rest := url.drop n
    let authority := rest.takeWhile (fun c => !(c = '/' || c = '?' || c = '#'))
    if authority.isEmpty then none
    else
      let after := rest.drop authority.length
      let path := after.takeWhile (fun c => !(c = '?' || c = '#'))
      some (if path.isEmpty then ['/'] else path)

/-- Embedding of `isLikelyRecipeUrl` (email-parser.ts lines 198-247),
parameterized by the URL-parser model; `.error ()` is `new URL` throwing. -/
def isLikelyRecipeUrl (parseURL : List Char → Option (List Char)) (url : List Char) :
    Except Unit Bool :=
  let lowerUrl := lowerL url
  if skipPatterns.any (fun p => containsL lowerUrl p) then .ok false
  else if RECIPE_DOMAINS.any (fun d => containsL lowerUrl d) then .ok true
  else if recipeKeywords.any (fun k => containsL lowerUrl k) then .ok true
  else
    match parseURL url with
    | none => .error ()
    | some pathname =>
      .ok (decide (1 ≤ ((splitOnChar '/' pathname).filter (fun s => !s.isEmpty)).length))

/-- Boolean form of "classified as a recipe candidate": `isLikelyRecipeUrl`
returned `true` (rather than `false` or a thrown exception). -/
def acceptsUrl (parseURL : List Char → Option (List Char)) (url : List Char) : Bool :=
  match isLikelyRecipeUrl parseURL url with
  | .ok true => true
  | _ => false

/-- The url and video buckets of `ParsedEmailContent` (the two buckets the
body-URL loop fills). -/
structure UrlBuckets where
  urls : List (List Char)
  videos : List (List Char × VideoPlatform)
deriving DecidableEq, Repr

/-- Embedding of the body-URL loop of `parseEmailContent` (email-parser.ts
lines 141-169): clean, deduplicate by seen-set, classify; an exception from
`isLikelyRecipeUrl` aborts the whole parse. -/
def classifyUrls (parseURL : List Char → Option (List Char)) :
    List (List Char) → List (List Char) → Except Unit UrlBuckets
  | _, [] => .ok ⟨[], []⟩
  | seen, url :: rest =>
    let c := cleanUrl url
    if c ∈ seen then classifyUrls parseURL seen rest
    else
      match detectVideoPlatform c with
      | some p =>
        match classifyUrls parseURL (c :: seen) rest with
        | .ok b => .ok ⟨b.urls, (c, p) :: b.videos⟩
        | .error e => .error e
      | none =>
        match isLikelyRecipeUrl parseURL c with
        | .error e => .error e
        | .ok true =>
          match classifyUrls parseURL (c :: seen) rest with
          | .ok b => .ok ⟨c :: b.urls, b.videos⟩
          | .error e => .error e
        | .ok false => classifyUrls parseURL (c :: seen) rest

/-- The url/video buckets produced by `parseEmailContent` for a given
combined body text (after a successful MIME parse). -/
def parseEmailContentUrls (parseURL : List Char → Option (List Char))
    (bodyText : List Char) : Except Unit UrlBuckets :=
  classifyUrls parseURL [] (scanUrls bodyText)

/-! ### Specification-side reformulation: dedup-then-process -/

/-- First-occurrence deduplication relative to an already-seen set. -/
def firstSeenAux : List (List Char) → List (List Char) → List (List Char)
  | _, [] => []
  | seen, c :: rest =>
    if c ∈ seen then firstSeenAux seen rest
    else c :: firstSeenAux (c :: seen) rest

/-- First-occurrence deduplication, preserving first-seen order. -/
def firstSeen (l : List (List Char)) : List (List Char) := firstSeenAux [] l

/-- Classification of a list of already-cleaned, already-deduplicated URLs. -/
def processCleaned (parseURL : List Char → Option (List Char)) :
    List (List Char) → Except Unit UrlBuckets
  | [] => .ok ⟨[], []⟩
  | c :: rest =>
    match detectVideoPlatform c with
    | some p =>
      match processCleaned parseURL rest with
      | .ok b => .ok ⟨b.urls, (c, p) :: b.videos⟩
      | .error e => .error e
    | none =>
      match isLikelyRecipeUrl parseURL c with
      | .error e => .error e
      | .ok true =>
        match processCleaned parseURL rest with
        | .ok b => .ok ⟨c :: b.urls, b.videos⟩
        | .error e => .error e
      | .ok false => processCleaned parseURL rest

theorem classifyUrls_eq_processCleaned (parseURL : List Char → Option (List Char))
    (l : List (List Char)) :
    ∀ seen, classifyUrls parseURL seen l
      = processCleaned parseURL (firstSeenAux seen (l.map cleanUrl)) := by
  induction l with
  | nil => intro seen; rfl
  | cons url rest ih =>
    intro seen
    show (if cleanUrl url ∈ seen then _ else _) = _
    by_cases hs : cleanUrl url ∈ seen
    · simp only [if_pos hs, List.map_cons, firstSeenAux, ih]
    · simp only [if_neg hs, List.map_cons, firstSeenAux, ih]
      rfl

theorem firstSeenAux_nodup (l : List (List Char)) :
    ∀ seen, (firstSeenAux seen l).Nodup ∧ ∀ x ∈ firstSeenAux seen l, x ∉ seen := by
  induction l with
  | nil => intro seen; exact ⟨List.nodup_nil, by simp [firstSeenAux]⟩
  | cons c rest ih =>
    intro seen
    by_cases hs : c ∈ seen
    · simpa [firstSeenAux, hs] using ih seen
    · have h2 := ih (c :: seen)
      refine ⟨?_, ?_⟩
      · simp only [firstSeenAux, if_neg hs, List.nodup_cons]
        refine ⟨fun hc => ?_, h2.1⟩
        exact (h2.2 c hc) (List.mem_cons_self c seen)
      · intro x hx
        simp only [firstSeenAux, if_neg hs, List.mem_cons] at hx
        rcases hx with rfl | hx
        · exact hs
        · intro hxseen
          exact (h2.2 x hx) (List.mem_cons_of_mem c hxseen)

theorem firstSeenAux_sublist (l : List (List Char)) :
    ∀ seen, List.Sublist (firstSeenAux seen l) l := by
  induction l with
  | nil => intro seen; simp [firstSeenAux]
  | cons c rest ih =>
    intro seen
    by_cases hs : c ∈ seen
    · simp only [firstSeenAux, if_pos hs]
      exact List.Sublist.cons c (ih seen)
    · simp only [firstSeenAux, if_neg hs]
      exact List.Sublist.cons₂ c (ih (c :: seen))

theorem firstSeenAux_mem (l : List (List Char)) :
    ∀ seen x, x ∈ firstSeenAux seen l ↔ x ∈ l ∧ x ∉ seen := by
  induction l with
  | nil => intro seen x; simp [firstSeenAux]
  | cons c rest ih =>
    intro seen x
    by_cases hs : c ∈ seen
    · simp only [firstSeenAux, if_pos hs, ih]
      constructor
      · rintro ⟨hx, hns⟩
        exact ⟨List.mem_cons_of_mem c hx, hns⟩
      · rintro ⟨hx, hns⟩
        rcases List.mem_cons.mp hx with rfl | hx'
        · exact absurd hs hns
        · exact ⟨hx', hns⟩
    · simp only [firstSeenAux, if_neg hs]
      constructor
      · intro hx
        rcases List.mem_cons.mp hx with rfl | hx'
        · exact ⟨List.mem_cons_self x rest, hs⟩
        · obtain ⟨h1, h2⟩ := (ih (c :: seen) x).mp hx'
          exact ⟨List.mem_cons_of_mem c h1, fun hseen => h2 (List.mem_cons_of_mem c hseen)⟩
      · rintro ⟨hx, hns⟩
        rcases List.mem_cons.mp hx with rfl | hx'
        · exact List.mem_cons_self x _
        · by_cases hxc : x = c
          · subst hxc
            exact List.mem_cons_self x _
          · refine List.mem_cons_of_mem c ((ih (c :: seen) x).mpr ⟨hx', ?_⟩)
            intro hmem
            rcases List.mem_cons.mp hmem with h | h
            · exact hxc h
            · exact hns h

/-- When the classification of a deduplicated cleaned list succeeds, the
video bucket is exactly the video-signature matches (in order, with their
platform) and the url bucket exactly the accepted recipe candidates (in
order). -/
theorem processCleaned_ok_buckets (parseURL : List Char → Option (List Char))
    (l : List (List Char)) :
    ∀ b : UrlBuckets, processCleaned parseURL l = .ok b →
      b.videos = l.filterMap (fun c => (detectVideoPlatform c).map (fun p => (c, p))) ∧
      b.urls = l.filter (fun c => (detectVideoPlatform c).isNone && acceptsUrl parseURL c) := by
  induction l with
  | nil =>
    intro b hb
    simp only [processCleaned] at hb
    cases hb
    simp
  | cons c rest ih =>
    intro b hb
    simp only [processCleaned] at hb
    match hd : detectVideoPlatform c with
    | some p =>
      rw [hd] at hb
      match hr : processCleaned parseURL rest with
      | .ok b' =>
        rw [hr] at hb
        cases hb
        have hih := ih b' hr
        constructor
        · simp [List.filterMap_cons, hd, hih.1]
        · simp [List.filter_cons, hd, hih.2]
      | .error e => rw [hr] at hb; cases hb
    | none =>
      rw [hd] at hb
      match hl : isLikelyRecipeUrl parseURL c with
      | .error e => rw [hl] at hb; cases hb
      | .ok true =>
        rw [hl] at hb
        match hr : processCleaned parseURL rest with
        | .ok b' =>
          rw [hr] at hb
          cases hb
          have hih := ih b' hr
          constructor
          · simp [List.filterMap_cons, hd, hih.1]
          · simp [List.filter_cons, hd, acceptsUrl, hl, hih.2]
        | .error e => rw [hr] at hb; cases hb
      | .ok false =>
        rw [hl] at hb
        have hih := ih b hb
        constructor
        · simp [List.filterMap_cons, hd, hih.1]
        · simp [List.filter_cons, hd, acceptsUrl, hl, hih.2]

/-- The only exception source in the body-URL loop is the URL parse inside
`isLikelyRecipeUrl`; if the parse succeeds on every element then
classification succeeds. -/
theorem processCleaned_ok_of_parse (parseURL : List Char → Option (List Char))
    (l : List (List Char)) (h : ∀ u ∈ l, (parseURL u).isSome = true) :
    ∃ b, processCleaned parseURL l = .ok b := by
  induction l with
  | nil => exact ⟨⟨[], []⟩, rfl⟩
  | cons c rest ih =>
    obtain ⟨b', hb'⟩ := ih (fun u hu => h u (List.mem_cons_of_mem c hu))
    have hc := h c (List.mem_cons_self c rest)
    have hlik : ∀ e, isLikelyRecipeUrl parseURL c ≠ .error e := by
      intro e he
      simp only [isLikelyRecipeUrl] at he
      by_cases h1 : skipPatterns.any (fun p => containsL (lowerL c) p) = true
      · simp [h1] at he
      · by_cases h2 : RECIPE_DOMAINS.any (fun d => containsL (lowerL c) d) = true
        · simp [h1, h2] at he
        · by_cases h3 : recipeKeywords.any (fun k => containsL (lowerL c) k) = true
          · simp [h1, h2, h3] at he
          · match hp : parseURL c with
            | some pn => simp [h1, h2, h3, hp] at he
            | none => rw [hp] at hc; simp at hc
    simp only [processCleaned]
    match hd : detectVideoPlatform c with
    | some p => exact ⟨⟨b'.urls, (c, p) :: b'.videos⟩, by rw [hb']⟩
    | none =>
      match hl : isLikelyRecipeUrl parseURL c with
      | .error e => exact absurd hl (hlik e)
      | .ok true => exact ⟨⟨c :: b'.urls, b'.videos⟩, by rw [hb']⟩
      | .ok false => exact ⟨b', hb'⟩

/-! ## JS values produced by `JSON.parse` -/

/-- JSON values (JS objects as produced by `JSON.parse`).  Numbers keep
their source token: no claim depends on float semantics, and re-rendering a
number is modelled as the token itself. -/
inductive Json where
  | null
  | bool (b : Bool)
  | num (raw : String)
  | str (s : String)
  | arr (elems : List Json)
  | obj (fields : List (String × Json))
deriving Repr, Inhabited

/-- A JSON number token denotes zero iff every mantissa digit is `0`. -/
def numTokenIsZero (raw : String) : Bool :=
  let noSign := match raw.toList with
    | '-' :: rest => rest
    | l => l
  let mantissa := noSign.takeWhile (fun c => !(c = 'e' || c = 'E'))
  mantissa.all (fun c => !(isDigitC c) || c = '0')

/-- JS truthiness of a parsed JSON value (`NaN` cannot arise from
`JSON.parse`). -/
def jsTruthy : Json → Bool
  | .null => false
  | .bool b => b
  | .num raw => !(numTokenIsZero raw)
  | .str s => s != ""
  | .arr _ => true
  | .obj _ => true

/-- JS property lookup in a parsed object: `JSON.parse` keeps the *last*
occurrence of a duplicated key, so later fields take precedence. -/
def jget : List (String × Json) → String → Option Json
  | [], _ => none
  | kv :: rest, key =>
    match jget rest key with
    | some r => some r
    | none => if kv.1 = key then some kv.2 else none

mutual

/-- JS `String(v)` coercion of a parsed JSON value.  A number re-renders as
its source token (differs from JS only on non-canonical tokens, which no
claim exercises). -/
def jsToString : Json → String
  | .null => "null"
  | .bool true => "true"
  | .bool false => "false"
  | .num raw => raw
  | .str s => s
  | .arr l => String.intercalate "," (jsToStringArrElems l)
  | .obj _ => "[object Object]"

/-- `Array.prototype.join(',')` element coercion: `null` renders as the
empty string inside a join. -/
def jsToStringArrElems : List Json → List String
  | [] => []
  | .null :: rest => "" :: jsToStringArrElems rest
  | j :: rest => jsToString j :: jsToStringArrElems rest

end

/-! ## Model of `JSON.parse` (recursive-descent, fuelled) -/

/-- JSON whitespace (`JSON.parse` accepts space, tab, LF, CR). -/
def isJsonWs (c : Char) : Bool := c = ' ' || c = '\t' || c = '\n' || c = '\r'

def skipWsJ (l : List Char) : List Char := l.dropWhile isJsonWs

/-- Value of one hexadecimal digit, by code point (48-57 digits, 97-102
lowercase, 65-70 uppercase). -/
def hexDigitVal (c : Char) : Option Nat :=
  let n := c.toNat
  if 48 ≤ n && n ≤ 57 then some (n - 48)
  else if 97 ≤ n && n ≤ 102 then some (n - 87)
  else if 65 ≤ n && n ≤ 70 then some (n - 55)
  else none

/-- Strip a literal keyword prefix, returning the remainder. -/
def stripLit (kw : List Char) (l : List Char) : Option (List Char) :=
  if isPrefixL kw l then some (l.drop kw.length) else none

/-- JSON string-literal body (after the opening quote): returns the decoded
characters and the remainder past the closing quote.  (Surrogate-pair
recombination is not modelled; no claim exercises it.) -/
def jpStringLit : Nat → List Char → Option (List Char × List Char)
  | 0, _ => none
  | _, [] => none
  | fuel + 1, c :: rest =>
    if c = '\"' then some ([], rest)
    else if c = '\\' then
      match rest with
      | [] => none
      | e :: rest2 =>
        let esc : Option (Char × List Char) :=
          if e = '\"' then some ('\"', rest2)
          else if e = '\\' then some ('\\', rest2)
          else if e = '/' then some ('/', rest2)
          else if e = 'b' then some ('\x08', rest2)
          else if e = 'f' then some ('\x0c', rest2)
          else if e = 'n' then some ('\n', rest2)
          else if e = 'r' then some ('\r', rest2)
          else if e = 't' then some ('\t', rest2)
          else if e = 'u' then
            match rest2 with
            | h1 :: h2 :: h3 :: h4 :: rest3 =>
              match hexDigitVal h1, hexDigitVal h2, hexDigitVal h3, hexDigitVal h4 with
              | some a, some b, some c2, some d =>
                some (Char.ofNat (((a * 16 + b) * 16 + c2) * 16 + d), rest3)
              | _, _, _, _ => none
            | _ => none
          else none
        match esc with
        | some (ch, rest') =>
          match jpStringLit fuel rest' with
          | some (s, r) => some (ch :: s, r)
          | none => none
        | none => none
    else if c.toNat < 32 then none
    else
      match jpStringLit fuel rest with
      | some (s, r) => some (c :: s, r)
      | none => none

/-- JSON number token (sign, integer part without leading zeros, optional
fraction, optional exponent); returns the token and the remainder. -/
def jpNumber (l : List Char) : Option (Json × List Char) :=
  let sign : List Char × List Char :=
    match l with
    | '-' :: rest => (['-'], rest)
    | _ => ([], l)
  match sign.2 with
  | [] => none
  | c :: _ =>
    if !(isDigitC c) then none
    else
      let intPart := if c = '0' then ['0'] else sign.2.takeWhile isDigitC
      let l2 := sign.2.drop intPart.length
      let frac : List Char × List Char :=
        match l2 with
        | '.' :: rest =>
          let ds := rest.takeWhile isDigitC
          if ds.isEmpty then ([], l2) else ('.' :: ds, rest.drop ds.length)
        | _ => ([], l2)
      let expo : List Char × List Char :=
        match frac.2 with
        | e :: rest =>
          if e = 'e' || e = 'E' then
            let se : List Char × List Char :=
              match rest with
              | s :: r2 => if s = '+' || s = '-' then ([s], r2) else ([], rest)
              | [] => ([], rest)
            let ds := se.2.takeWhile isDigitC
            if ds.isEmpty then ([], frac.2)
            else (e :: (se.1 ++ ds), se.2.drop ds.length)
          else ([], frac.2)
        | [] => ([], frac.2)
      some (.num (sign.1 ++ intPart ++ frac.1 ++ expo.1).asString, expo.2)

mutual

/-- One JSON value (leading whitespace allowed); returns it and the
remainder. -/
def jpValue : Nat → List Char → Option (Json × List Char)
  | 0, _ => none
  | fuel + 1, l =>
    let l2 := skipWsJ l
    match stripLit "null".toList l2 with
    | some r => some (.null, r)
    | none =>
      match stripLit "true".toList l2 with
      | some r => some (.bool true, r)
      | none =>
        match stripLit "false".toList l2 with
        | some r => some (.bool false, r)
        | none =>
          match l2 with
          | '\"' :: rest =>
            match jpStringLit (fuel + 1) rest with
            | some (s, r) => some (.str s.asString, r)
            | none => none
          | '[' :: rest => jpArray fuel rest
          | '\x7b' :: rest => jpObject fuel rest
          | _ => jpNumber l2

/-- Array tail after `[`. -/
def jpArray : Nat → List Char → Option (Json × List Char)
  | 0, _ => none
  | fuel + 1, l =>
    match skipWsJ l with
    | ']' :: rest => some (.arr [], rest)
    | l2 =>
      match jpElems fuel l2 with
      | some (elems, rest) => some (.arr elems, rest)
      | none => none

/-- Non-empty comma-separated element list, consuming the closing `]`. -/
def jpElems : Nat → List Char → Option (List Json × List Char)
  | 0, _ => none
  | fuel + 1, l =>
    match jpValue fuel l with
    | none => none
    | some (v, rest) =>
      match skipWsJ rest with
      | ',' :: rest2 =>
        match jpElems fuel rest2 with
        | some (vs, r) => some (v :: vs, r)
        | none => none
      | ']' :: rest2 => some ([v], rest2)
      | _ => none

/-- Object tail after `{`. -/
def jpObject : Nat → List Char → Option (Json × List Char)
  | 0, _ => none
  | fuel + 1, l =>
    match skipWsJ l with
    | '\x7d' :: rest => some (.obj [], rest)
    | l2 =>
      match jpMembers fuel l2 with
      | some (ms, rest) => some (.obj ms, rest)
      | none => none

/-- Non-empty comma-separated member list, consuming the closing `}`. -/
def jpMembers : Nat → List Char → Option (List (String × Json) × List Char)
  | 0, _ => none
  | fuel + 1, l =>
    match skipWsJ l with
    | '\"' :: rest =>
      match jpStringLit (fuel + 1) rest with
      | none => none
      | some (key, rest2) =>
        match skipWsJ rest2 with
        | ':' :: rest3 =>
          match jpValue fuel rest3 with
          | none => none
          | some (v, rest4) =>
            match skipWsJ rest4 with
            | ',' :: rest5 =>
              match jpMembers fuel rest5 with
              | some (ms, r) => some ((key.asString, v) :: ms, r)
              | none => none
            | '\x7d' :: rest5 => some ([(key.asString, v)], rest5)
            | _ => none
        | _ => none
    | _ => none

end

/-- Model of `JSON.parse`: a complete JSON text (surrounding whitespace
allowed); `none` where `JSON.parse` throws.  The fuel bounds nesting depth
and element count, both at most the input length. -/
def jsonParse (l : List Char) : Option Json :=
  match jpValue (l.length + 2) l with
  | some (v, rest) => if (skipWsJ rest).isEmpty then some v else none
  | none => none

/-! ## Structured-data extraction (`claude.ts`, `extractRecipeFromJsonLd`) -/

/-- `formatDuration(obj.prepTime as string)` on a parsed JSON field:
`undefined` and falsy values yield `""` through the `!duration` guard, a
truthy non-string throws a TypeError (`duration.match` is not a function),
which the per-block `try` upstream catches. -/
def formatDurationJ : Option Json → Except Unit String
  | none => .ok ""
  | some v =>
    if !(jsTruthy v) then .ok ""
    else
      match v with
      | .str s => .ok (formatDuration s)
      | _ => .error ()

/-- `Array.prototype.join` coercion for `recipeIngredient.join('\n')`. -/
def joinElem : Json → String
  | .null => ""
  | v => jsToString v

/-- The `recipeInstructions.map((step, idx) => ...)` body: a string step
renders as `${idx+1}. ${step}`, an object step uses its `text` or `name`
field (JS `||` fallback), any other primitive renders an empty text — except
`null`, on which `stepObj.text` throws. -/
def dirStrings : Nat → List Json → Except Unit (List String)
  | _, [] => .ok []
  | idx, step :: rest => do
    let s : String ←
      (match step with
       | .str s => .ok (toString (idx + 1) ++ ". " ++ s)
       | .null => .error ()
       | .obj f =>
         let text : Json :=
           match jget f "text" with
           | some v =>
             if jsTruthy v then v
             else
               (match jget f "name" with
                | some w => if jsTruthy w then w else .str ""
                | none => .str "")
           | none =>
             (match jget f "name" with
              | some w => if jsTruthy w then w else .str ""
              | none => .str "")
         .ok (toString (idx + 1) ++ ". " ++ jsToString text)
       | _ => .ok (toString (idx + 1) ++ ". "))
    let rest' ← dirStrings (idx + 1) rest
    .ok (s :: rest')

/-- Field extraction from a JSON-LD node already known to carry the Recipe
type tag (claude.ts lines 401-470).  Title is required (`!name` rejects the
node); ingredients join one-per-line; instructions are re-numbered `1..N`;
durations go through the formatter; servings takes the head of a list;
image and author are accepted in their several shapes.  Non-string values in
the `url`/`name`/coercion positions are modelled by their JS string
rendering. -/
def extractRecipeFields (fields : List (String × Json)) (sourceUrl : String) :
    Except Unit (Option ExtractedRecipe) := do
  let name : String :=
    match jget fields "name" with
    | some v => if jsTruthy v then jsToString v else ""
    | none => ""
  if name = "" then
    return none
  let ingredients : String :=
    match jget fields "recipeIngredient" with
    | some (.arr xs) => String.intercalate "\n" (xs.map joinElem)
    | _ => ""
  let directions : String ←
    (match jget fields "recipeInstructions" with
     | some (.arr steps) => do
        let strs ← dirStrings 0 steps
        pure (String.intercalate "\n" strs)
     | _ => pure "")
  let prepTime : String ← formatDurationJ (jget fields "prepTime")
  let cookTime : String ← formatDurationJ (jget fields "cookTime")
  let servings : String :=
    match jget fields "recipeYield" with
    | some v =>
      if jsTruthy v then
        match v with
        | .arr [] => "undefined"
        | .arr (x :: _) => jsToString x
        | other => jsToString other
      else ""
    | none => ""
  let imageUrl : String :=
    match jget fields "image" with
    | some v =>
      if jsTruthy v then
        match v with
        | .str s => s
        | .arr [] => ""
        | .arr (x :: _) =>
          (match x with
           | .str s => s
           | .obj f =>
             (match jget f "url" with
              | some u => if jsTruthy u then jsToString u else ""
              | none => "")
           | _ => "")
        | .obj f =>
          (match jget f "url" with
           | some u => if jsTruthy u then jsToString u else ""
           | none => "")
        | _ => ""
      else ""
    | none => ""
  let source : String :=
    match jget fields "author" with
    | some v =>
      if jsTruthy v then
        match v with
        | .str s => s
        | .arr [] => ""
        | .arr (x :: _) =>
          (match x with
           | .obj f =>
             (match jget f "name" with
              | some u => if jsTruthy u then jsToString u else ""
              | none => "")
           | _ => "")
        | .obj f =>
          (match jget f "name" with
           | some u => if jsTruthy u then jsToString u else ""
           | none => "")
        | _ => ""
      else ""
    | none => ""
  return some
    { name := name
      ingredients := ingredients
      directions := directions
      prep_time := prepTime
      cook_time := cookTime
      servings := servings
      source := source
      source_url := sourceUrl
      notes := ""
      image_url := some imageUrl }

/-- A value found by property lookup is structurally smaller than the field
list it came from. -/
theorem jget_sizeOf {fields : List (String × Json)} {key : String} {g : Json}
    (h : jget fields key = some g) : sizeOf g < sizeOf fields := by
  induction fields with
  | nil => simp [jget] at h
  | cons kv rest ih =>
    obtain ⟨k, v⟩ := kv
    simp only [jget] at h
    match hr : jget rest key with
    | some r =>
      rw [hr] at h
      cases h
      have := ih hr
      simp only [List.cons.sizeOf_spec]
      omega
    | none =>
      rw [hr] at h
      by_cases hk : k = key
      · simp only [hk, if_pos] at h
        cases h
        simp only [List.cons.sizeOf_spec, Prod.mk.sizeOf_spec]
        omega
      · rw [if_neg hk] at h
        cases h

mutual

/-- Embedding of `extractRecipeFromJsonLd` (claude.ts lines 376-470): the
recursive resolution over a parsed metadata value.  Arrays recurse in order;
a Recipe-tagged object has its fields extracted; a non-Recipe object
recurses into a truthy `@graph` value; anything else is not a recipe.
`.error ()` models a thrown TypeError (property access on `null`, or one of
`extractRecipeFields`' throws), caught by the per-block `try` upstream. -/
def extractRecipeFromJsonLd (data : Json) (sourceUrl : String) :
    Except Unit (Option ExtractedRecipe) :=
  match data with
  | .arr items => extractFromJsonLdList items sourceUrl
  | .null => .error ()
  | .obj fields =>
    let isRecipe :=
      match jget fields "@type" with
      | some (.str s) => s == "Recipe"
      | some (.arr ts) =>
        ts.any (fun t => match t with | .str s => s == "Recipe" | _ => false)
      | _ => false
    if isRecipe then extractRecipeFields fields sourceUrl
    else extractFromGraphFields fields sourceUrl
  | _ => .ok none
termination_by structural data

/-- The array case: the first element resolving to a non-placeholder recipe
node wins; elements named `NO_RECIPE` are skipped. -/
def extractFromJsonLdList (items : List Json) (sourceUrl : String) :
    Except Unit (Option ExtractedRecipe) :=
  match items with
  | [] => .ok none
  | item :: rest =>
    match extractRecipeFromJsonLd item sourceUrl with
    | .error e => .error e
    | .ok (some r) =>
      if r.name ≠ "NO_RECIPE" then .ok (some r)
      else extractFromJsonLdList rest sourceUrl
    | .ok none => extractFromJsonLdList rest sourceUrl
termination_by structural items

/-- The `@graph` step of a non-Recipe object: recurse into the object's
`@graph` property (the *last* field with that key, matching `jget`) when it
is truthy, else no recipe.  Written as a structural walk over the field list
so that recursion stays structural; `extractFromGraphFields_eq_jget` below
proves it implements exactly the source's `obj['@graph']` lookup followed by
`if (obj['@graph']) return this.extractRecipeFromJsonLd(obj['@graph'], ...)`. -/
def extractFromGraphFields (fields : List (String × Json)) (sourceUrl : String) :
    Except Unit (Option ExtractedRecipe) :=
  match fields with
  | [] => .ok none
  | (k, v) :: rest =>
    if rest.any (fun kv2 => decide (kv2.1 = "@graph")) then
      extractFromGraphFields rest sourceUrl
    else if k = "@graph" then
      (if jsTruthy v then extractRecipeFromJsonLd v sourceUrl else .ok none)
    else extractFromGraphFields rest sourceUrl
termination_by structural fields

end

theorem jget_isSome_of_any {fields : List (String × Json)} {key : String}
    (h : fields.any (fun kv => decide (kv.1 = key)) = true) :
    (jget fields key).isSome = true := by
  induction fields with
  | nil => simp at h
  | cons kv rest ih =>
    simp only [List.any_cons, Bool.or_eq_true] at h
    simp only [jget]
    match hr : jget rest key with
    | some r => rfl
    | none =>
      rcases h with h | h
      · rw [if_pos (of_decide_eq_true h)]
        rfl
      · have := ih h
        rw [hr] at this
        cases this

theorem jget_eq_none_of_not_any {fields : List (String × Json)} {key : String}
    (h : fields.any (fun kv => decide (kv.1 = key)) = false) :
    jget fields key = none := by
  induction fields with
  | nil => rfl
  | cons kv rest ih =>
    simp only [List.any_cons, Bool.or_eq_false_iff] at h
    simp only [jget, ih h.2]
    rw [if_neg (of_decide_eq_false h.1)]

/-- The structural `@graph` walk implements the source's property lookup:
it recurses into `jget fields "@graph"` exactly when that value is truthy. -/
theorem extractFromGraphFields_eq_jget (sourceUrl : String)
    (fields : List (String × Json)) :
    extractFromGraphFields fields sourceUrl =
      (match jget fields "@graph" with
       | some g => if jsTruthy g then extractRecipeFromJsonLd g sourceUrl else .ok none
       | none => .ok none) := by
  induction fields with
  | nil => rfl
  | cons kv rest ih =>
    obtain ⟨k, v⟩ := kv
    by_cases hany : rest.any (fun kv2 => decide (kv2.1 = "@graph")) = true
    · have hsome := jget_isSome_of_any hany
      simp only [extractFromGraphFields, if_pos hany, ih]
      match hr : jget rest "@graph" with
      | some r => simp only [jget, hr]
      | none => rw [hr] at hsome; cases hsome
    · have hnone := jget_eq_none_of_not_any (Bool.not_eq_true _ ▸ hany)
      have hfalse : rest.any (fun kv2 => decide (kv2.1 = "@graph")) = false :=
        Bool.not_eq_true _ ▸ hany
      simp only [extractFromGraphFields, if_neg hany, jget, hnone]
      by_cases hk : k = "@graph"
      · rw [if_pos hk, if_pos hk]
      · rw [if_neg hk, if_neg hk, ih, hnone]

/-- The JSON-LD block loop of `extractFromURL` (claude.ts lines 318-335),
over the `JSON.parse` outcomes of the matched script blocks (`none` = that
block failed to parse).  The accumulator is the mutable `recipeFromSchema`:
overwritten by every successfully evaluated block, kept on a caught throw,
and the loop breaks at the first non-null result not named `NO_RECIPE`. -/
def walkJsonLdBlocks (sourceUrl : String) :
    List (Option Json) → Option ExtractedRecipe → Option ExtractedRecipe
  | [], acc => acc
  | none :: rest, acc => walkJsonLdBlocks sourceUrl rest acc
  | some j :: rest, acc =>
    match extractRecipeFromJsonLd j sourceUrl with
    | .error _ => walkJsonLdBlocks sourceUrl rest acc
    | .ok (some rec) =>
      if rec.name ≠ "NO_RECIPE" then some rec
      else walkJsonLdBlocks sourceUrl rest (some rec)
    | .ok none => walkJsonLdBlocks sourceUrl rest none

/-- Outcome of `extractFromURL`'s structured-vs-generative decision: either
the structured result is returned directly, or the (truncated) page HTML is
sent to the generative extraction service. -/
inductive URLExtractOutcome where
  | structured (r : ExtractedRecipe)
  | generative (truncated : List Char)
deriving DecidableEq, Repr

/-- Embedding of the decision logic of `extractFromURL` (claude.ts lines
317-362), parameterized by the parse outcomes of the page's JSON-LD script
blocks in document order: the structured result is returned only when
present with truthy (non-empty) `ingredients` *and* `directions`; otherwise
the truncated HTML goes to the generative service. -/
def extractFromURLCore (parsedBlocks : List (Option Json)) (html : List Char)
    (url : String) : URLExtractOutcome :=
  match walkJsonLdBlocks url parsedBlocks none with
  | some r =>
    if r.ingredients ≠ "" ∧ r.directions ≠ "" then .structured r
    else .generative (truncatedHtml html)
  | none => .generative (truncatedHtml html)

/-! ## Generative-response parsing (`claude.ts`, `parseRecipeResponse`) -/

/-- JS `String.prototype.trim`. -/
def jsTrim (l : List Char) : List Char :=
  ((l.dropWhile isJsSpace).reverse.dropWhile isJsSpace).reverse

/-- Index of the last occurrence of `c`. -/
def idxOfLast (c : Char) (l : List Char) : Option Nat :=
  match l.reverse.findIdx? (fun x => x = c) with
  | some i => some (l.length - 1 - i)
  | none => none

/-- The single span matched by the greedy regex `/\{[\s\S]*\}/`: from the
first opening brace to the last closing brace (if any closing brace comes
after the first opening brace). -/
def braceSpan (l : List Char) : Option (List Char) :=
  match l.findIdx? (fun c => c = '\x7b'), idxOfLast '\x7d' l with
  | some i, some j => if i < j then some ((l.drop i).take (j - i + 1)) else none
  | _, _ => none

/-- The two failure modes of `parseRecipeResponse`: the *uncaught*
`JSON.parse` syntax error thrown while re-parsing the greedy span, and the
explicit `Failed to parse recipe JSON: ...` error carrying the first 200
characters. -/
inductive RecipeParseFail where
  | syntaxError
  | noJsonFound (first200 : List Char)
deriving DecidableEq, Repr

/-- Embedding of `parseRecipeResponse` (claude.ts lines 519-538) on the
response text: direct `JSON.parse` of the trimmed text, then — on failure —
one re-parse of the single greedy first-brace-to-last-brace span.  The
parsed JSON then goes through `validateRecipe` in the source; the claim
concerns the parse/throw structure. -/
def parseRecipeResponseCore (text : List Char) : Except RecipeParseFail Json :=
  match jsonParse (jsTrim text) with
  | some v => .ok v
  | none =>
    match braceSpan (jsTrim text) with
    | some sp =>
      match jsonParse sp with
      | some v => .ok v
      | none => .error .syntaxError
    | none => .error (.noJsonFound ((jsTrim text).take 200))

/-- A URL matching a video-platform signature is detected as some platform. -/
theorem detect_some_of_signature (u : List Char)
    (h : containsL (lowerL u) "tiktok.com".toList = true ∨
         containsL (lowerL u) "instagram.com/reel/".toList = true ∨
         containsL (lowerL u) "instagram.com/p/".toList = true ∨
         containsL (lowerL u) "instagram.com/tv/".toList = true) :
    (detectVideoPlatform u).isSome = true := by
  unfold detectVideoPlatform
  by_cases ht : (containsL (lowerL u) "tiktok.com".toList
      || containsL (lowerL u) "vm.tiktok.com".toList) = true
  · rw [if_pos ht]
    rfl
  · rw [if_neg ht]
    have hcond : (containsL (lowerL u) "instagram.com/reel/".toList
        || containsL (lowerL u) "instagram.com/p/".toList
        || containsL (lowerL u) "instagram.com/tv/".toList) = true := by
      rcases h with h | h | h | h
      · exact absurd (by rw [h]; rfl) ht
      · rw [h]
        rfl
      · rw [h, Bool.or_true, Bool.true_or]
      · rw [h, Bool.or_true]
    rw [if_pos hcond]
    rfl

/-- A URL containing a block-listed social-network domain is always rejected
by the recipe-candidate filter (skip patterns are checked first). -/
theorem isLikely_false_of_social (parseURL : List Char → Option (List Char))
    (u : List Char)
    (h : containsL (lowerL u) "youtube.com".toList = true ∨
         containsL (lowerL u) "instagram.com".toList = true) :
    isLikelyRecipeUrl parseURL u = .ok false := by
  have hany : skipPatterns.any (fun p => containsL (lowerL u) p) = true := by
    rcases h with h | h
    · exact List.any_eq_true.mpr ⟨"youtube.com".toList, by decide, h⟩
    · exact List.any_eq_true.mpr ⟨"instagram.com".toList, by decide, h⟩
  simp [isLikelyRecipeUrl, hany]

/-! # Claim theorems -/

/-- **C2.** For every URL of the body that matches a video-platform signature
(a TikTok domain substring, or an Instagram reel/post/tv path shape), the
body-URL classification of `parseEmailContent` places it (as its cleaned
representative) in the videos bucket with its platform tag, and never in the
urls bucket — even when the same URL also contains a recipe keyword or a
known recipe-site domain substring (no hypothesis below excludes that). -/
theorem video_platform_always_wins (parseURL : List Char → Option (List Char))
    (bodyText : List Char) (b : UrlBuckets)
    (hok : parseEmailContentUrls parseURL bodyText = .ok b) (u : List Char)
    (hsig : containsL (lowerL u) "tiktok.com".toList = true ∨
            containsL (lowerL u) "instagram.com/reel/".toList = true ∨
            containsL (lowerL u) "instagram.com/p/".toList = true ∨
            containsL (lowerL u) "instagram.com/tv/".toList = true) :
    u ∉ b.urls ∧
    (u ∈ firstSeen ((scanUrls bodyText).map cleanUrl) →
      ∃ p, (u, p) ∈ b.videos ∧ detectVideoPlatform u = some p) := by
  rw [parseEmailContentUrls, classifyUrls_eq_processCleaned parseURL _ []] at hok
  obtain ⟨hv, hu⟩ := processCleaned_ok_buckets parseURL _ b hok
  have hsome := detect_some_of_signature u hsig
  constructor
  · rw [hu]
    intro hmem
    have hcond := List.of_mem_filter hmem
    rw [Bool.and_eq_true] at hcond
    rw [Option.isNone_iff_eq_none.mp hcond.1] at hsome
    cases hsome
  · intro hmem
    obtain ⟨p, hp⟩ := Option.isSome_iff_exists.mp hsome
    refine ⟨p, ?_, hp⟩
    rw [hv]
    exact List.mem_filterMap.mpr ⟨u, hmem, by rw [hp]; rfl⟩

/-- Witness for C2: a TikTok URL that also contains the recipe keyword
`recipe` lands in the videos bucket, never in the urls bucket. -/
theorem video_platform_always_wins_witness :
    "https://tiktok.com/recipe/1".toList ∉
      (UrlBuckets.mk [] [("https://tiktok.com/recipe/1".toList, .tiktok)]).urls ∧
    ("https://tiktok.com/recipe/1".toList ∈
        firstSeen ((scanUrls "see https://tiktok.com/recipe/1".toList).map cleanUrl) →
      ∃ p, ("https://tiktok.com/recipe/1".toList, p) ∈
          (UrlBuckets.mk [] [("https://tiktok.com/recipe/1".toList, .tiktok)]).videos ∧
        detectVideoPlatform "https://tiktok.com/recipe/1".toList = some p) :=
  video_platform_always_wins newURLPathname "see https://tiktok.com/recipe/1".toList
    ⟨[], [("https://tiktok.com/recipe/1".toList, .tiktok)]⟩ rfl
    "https://tiktok.com/recipe/1".toList (Or.inl (by decide))

/-- **C5 counterexample.** The body `"see http://. now"` has well-formed MIME
structure, its matched URL `"http://."` cleans to `"http://"`, and the
classification of that URL throws (`new URL("http://")` has an empty host),
aborting the whole message: malformed MIME is *not* the only abort
condition, and body-URL classification *can* throw on a matched URL. -/
theorem url_classification_can_throw_cex :
    scanUrls "see http://. now".toList = ["http://.".toList] ∧
    cleanUrl "http://.".toList = "http://".toList ∧
    parseEmailContentUrls newURLPathname "see http://. now".toList = .error () :=
  ⟨rfl, rfl, rfl⟩

/-- **C5 amended.** For every raw email whose MIME structure parses
successfully, the body-URL classification returns its buckets without
throwing *provided* every matched URL's cleaned form is accepted by the URL
parser; the only exception source below the MIME parse is `new URL` on a
cleaned matched URL (e.g. the cleaned form `"http://"`, whose empty host
makes the parser throw and the whole message abort). -/
theorem url_classification_no_throw_when_parse_succeeds
    (parseURL : List Char → Option (List Char)) (bodyText : List Char)
    (h : ∀ u ∈ (scanUrls bodyText).map cleanUrl, (parseURL u).isSome = true) :
    ∀ e, parseEmailContentUrls parseURL bodyText ≠ .error e := by
  intro e he
  rw [parseEmailContentUrls, classifyUrls_eq_processCleaned parseURL _ []] at he
  obtain ⟨b, hb⟩ := processCleaned_ok_of_parse parseURL _
    (fun u hu => h u ((firstSeenAux_mem _ [] u).mp hu).1)
  rw [hb] at he
  cases he

/-- Witness for C5-amended at a concrete body whose only URL parses. -/
theorem url_classification_no_throw_when_parse_succeeds_witness :
    parseEmailContentUrls newURLPathname
      "go https://example.com/dinner-rolls".toList ≠ .error () :=
  url_classification_no_throw_when_parse_succeeds newURLPathname
    "go https://example.com/dinner-rolls".toList (by decide) ()

/-- **C8 counterexample.** Two matched URLs identical after cleanup need not
produce exactly one content item: two copies of a block-listed URL collapse
to one candidate that is then rejected, producing zero items. -/
theorem duplicate_urls_can_produce_zero_items_cex :
    (scanUrls "https://facebook.com/a and https://facebook.com/a.".toList).map cleanUrl
      = ["https://facebook.com/a".toList, "https://facebook.com/a".toList] ∧
    parseEmailContentUrls newURLPathname
        "https://facebook.com/a and https://facebook.com/a.".toList
      = .ok ⟨[], []⟩ :=
  ⟨rfl, rfl⟩

/-- **C8 amended.** Matched body URLs are deduplicated by exact cleaned
string: the surviving cleaned URLs are exactly the first occurrences, kept in
first-seen order (a duplicate-free sublist of the cleaned match list covering
all its values), and classification processes exactly that list — so any two
matched URLs identical after cleanup produce *at most* one content item
between them: exactly one when the shared cleaned URL matches a video
signature or is accepted as a recipe candidate, zero when it is rejected. -/
theorem urls_dedup_first_seen_order (parseURL : List Char → Option (List Char))
    (bodyText : List Char) (b : UrlBuckets)
    (hok : parseEmailContentUrls parseURL bodyText = .ok b) :
    (firstSeen ((scanUrls bodyText).map cleanUrl)).Nodup ∧
    List.Sublist (firstSeen ((scanUrls bodyText).map cleanUrl))
      ((scanUrls bodyText).map cleanUrl) ∧
    (∀ x, x ∈ firstSeen ((scanUrls bodyText).map cleanUrl) ↔
      x ∈ (scanUrls bodyText).map cleanUrl) ∧
    b.videos = (firstSeen ((scanUrls bodyText).map cleanUrl)).filterMap
      (fun c => (detectVideoPlatform c).map (fun p => (c, p))) ∧
    b.urls = (firstSeen ((scanUrls bodyText).map cleanUrl)).filter
      (fun c => (detectVideoPlatform c).isNone && acceptsUrl parseURL c) := by
  rw [parseEmailContentUrls, classifyUrls_eq_processCleaned parseURL _ []] at hok
  obtain ⟨hv, hu⟩ := processCleaned_ok_buckets parseURL _ b hok
  refine ⟨(firstSeenAux_nodup _ []).1, firstSeenAux_sublist _ [], ?_, hv, hu⟩
  intro x
  rw [firstSeen, firstSeenAux_mem]
  simp

/-- Witness for C8-amended: a body with a duplicated accepted URL yields one
url item. -/
theorem urls_dedup_first_seen_order_witness :
    (firstSeen ((scanUrls
        "https://example.com/soup-recipe or https://example.com/soup-recipe".toList).map
        cleanUrl)).Nodup ∧
    List.Sublist (firstSeen ((scanUrls
        "https://example.com/soup-recipe or https://example.com/soup-recipe".toList).map
        cleanUrl))
      ((scanUrls
        "https://example.com/soup-recipe or https://example.com/soup-recipe".toList).map
        cleanUrl) ∧
    (∀ x, x ∈ firstSeen ((scanUrls
        "https://example.com/soup-recipe or https://example.com/soup-recipe".toList).map
        cleanUrl) ↔
      x ∈ ((scanUrls
        "https://example.com/soup-recipe or https://example.com/soup-recipe".toList).map
        cleanUrl)) ∧
    (UrlBuckets.mk ["https://example.com/soup-recipe".toList] []).videos =
      (firstSeen ((scanUrls
        "https://example.com/soup-recipe or https://example.com/soup-recipe".toList).map
        cleanUrl)).filterMap
        (fun c => (detectVideoPlatform c).map (fun p => (c, p))) ∧
    (UrlBuckets.mk ["https://example.com/soup-recipe".toList] []).urls =
      (firstSeen ((scanUrls
        "https://example.com/soup-recipe or https://example.com/soup-recipe".toList).map
        cleanUrl)).filter
        (fun c => (detectVideoPlatform c).isNone && acceptsUrl newURLPathname c) :=
  urls_dedup_first_seen_order newURLPathname
    "https://example.com/soup-recipe or https://example.com/soup-recipe".toList
    ⟨["https://example.com/soup-recipe".toList], []⟩ rfl

/-- **C10 counterexample.** A URL whose lowercase form contains
`"youtube.com"` is *not* always dropped: one that also contains a TikTok
domain substring is classified as a TikTok video. -/
theorem youtube_url_in_video_bucket_cex :
    containsL (lowerL "https://youtube.com/?x=tiktok.com".toList)
      "youtube.com".toList = true ∧
    parseEmailContentUrls newURLPathname "https://youtube.com/?x=tiktok.com".toList
      = .ok ⟨[], [("https://youtube.com/?x=tiktok.com".toList, .tiktok)]⟩ :=
  ⟨rfl, rfl⟩

/-- **C10 amended.** A URL containing `"youtube.com"` (or an
`"instagram.com"` URL) never reaches the urls bucket, and reaches the videos
bucket only when it matches a video-platform signature; when it matches no
video signature it lands in neither bucket — silently dropped at
ingestion. -/
theorem youtube_instagram_nonvideo_dropped (parseURL : List Char → Option (List Char))
    (bodyText : List Char) (b : UrlBuckets)
    (hok : parseEmailContentUrls parseURL bodyText = .ok b) (u : List Char)
    (hyi : containsL (lowerL u) "youtube.com".toList = true ∨
           containsL (lowerL u) "instagram.com".toList = true) :
    u ∉ b.urls ∧
    (detectVideoPlatform u = none → ∀ p, (u, p) ∉ b.videos) := by
  rw [parseEmailContentUrls, classifyUrls_eq_processCleaned parseURL _ []] at hok
  obtain ⟨hv, hu⟩ := processCleaned_ok_buckets parseURL _ b hok
  constructor
  · rw [hu]
    intro hmem
    have hcond := List.of_mem_filter hmem
    rw [Bool.and_eq_true] at hcond
    have hacc := hcond.2
    have hflat : acceptsUrl parseURL u = false := by
      unfold acceptsUrl
      rw [isLikely_false_of_social parseURL u hyi]
    rw [hflat] at hacc
    cases hacc
  · intro hnone p hp
    rw [hv] at hp
    obtain ⟨a, _, hfa⟩ := List.mem_filterMap.mp hp
    match hda : detectVideoPlatform a with
    | none => rw [hda] at hfa; cases hfa
    | some q =>
      rw [hda] at hfa
      simp at hfa
      rw [hfa.1] at hda
      rw [hnone] at hda
      cases hda

/-- Witness for C10-amended: a plain YouTube URL and a plain non-video
Instagram URL are both silently dropped. -/
theorem youtube_instagram_nonvideo_dropped_witness :
    "https://youtube.com/watch?v=1".toList ∉ (UrlBuckets.mk [] []).urls ∧
    (detectVideoPlatform "https://youtube.com/watch?v=1".toList = none →
      ∀ p, ("https://youtube.com/watch?v=1".toList, p) ∉ (UrlBuckets.mk [] []).videos) :=
  youtube_instagram_nonvideo_dropped newURLPathname
    "https://youtube.com/watch?v=1 https://instagram.com/about".toList
    ⟨[], []⟩ rfl "https://youtube.com/watch?v=1".toList (Or.inl (by decide))

/-- **C1.** A record named `"UNREADABLE"` or `"NO_RECIPE"` makes `saveRecipe`
record a failed outcome whose error message quotes the record's `notes`
field, and never invokes the recipe-manager sink's create operation; every
other name makes it invoke the sink's create operation on that record. -/
theorem sentinel_names_never_reach_sink (r : ExtractedRecipe) (sourceDesc : String) :
    ((r.name = "UNREADABLE" ∨ r.name = "NO_RECIPE") →
      saveRecipe r sourceDesc =
        .recordFailure ("Could not extract recipe from " ++ sourceDesc ++ ": " ++ r.notes) ∧
      ∀ r', saveRecipe r sourceDesc ≠ .invokeSink r') ∧
    (r.name ≠ "UNREADABLE" → r.name ≠ "NO_RECIPE" →
      saveRecipe r sourceDesc = .invokeSink r) := by
  constructor
  · intro h
    constructor
    · simp [saveRecipe, h]
    · intro r'
      simp [saveRecipe, h]
  · intro h1 h2
    simp [saveRecipe, h1, h2]

/-- Witness for C1 at a concrete sentinel record and a concrete ordinary
record. -/
theorem sentinel_names_never_reach_sink_witness :
    saveRecipe ⟨"NO_RECIPE", "", "", "", "", "", "", "", "no recipe on page", none⟩ "u" =
      .recordFailure "Could not extract recipe from u: no recipe on page" ∧
    saveRecipe ⟨"Pancakes", "flour", "mix", "", "", "", "", "", "", none⟩ "u" =
      .invokeSink ⟨"Pancakes", "flour", "mix", "", "", "", "", "", "", none⟩ := by
  refine ⟨?_, ?_⟩
  · exact ((sentinel_names_never_reach_sink
      ⟨"NO_RECIPE", "", "", "", "", "", "", "", "no recipe on page", none⟩ "u").1
      (Or.inr rfl)).1
  · exact (sentinel_names_never_reach_sink
      ⟨"Pancakes", "flour", "mix", "", "", "", "", "", "", none⟩ "u").2
      (by decide) (by decide)

/-- **C4 counterexample.** The claim says every malformed duration string maps
to `""`; but on a string not containing `PT` the source returns the input
unchanged (`if (!match) return duration;`): `formatDuration "abc" = "abc"`. -/
theorem formatDuration_malformed_cex :
    formatDuration "abc" = "abc" ∧ formatDuration "abc" ≠ "" := by
  constructor
  · rfl
  · decide

/-- **C4 amended.** The duration formatter maps `"PT1H30M"` to
`"1 hour 30 min"`, `"PT45M"` to `"45 min"`, `"PT2H"` to `"2 hours"`, and the
empty string to `""`; a malformed string *not containing* `"PT"` is returned
unchanged, and a string containing `"PT"` whose match carries no hour and no
minute component maps to `""`. -/
theorem formatDuration_examples_and_fallthrough :
    formatDuration "PT1H30M" = "1 hour 30 min" ∧
    formatDuration "PT45M" = "45 min" ∧
    formatDuration "PT2H" = "2 hours" ∧
    formatDuration "" = "" ∧
    (∀ s : String, ptMatch s.toList = none → formatDuration s = s) ∧
    (∀ s : String, ptMatch s.toList = some (0, 0) → formatDuration s = "") := by
  refine ⟨by decide, by decide, by decide, rfl, ?_, ?_⟩
  · intro s h
    have h' : ptMatch s.data = none := h
    by_cases hs : s = ""
    · simp [formatDuration, hs]
    · simp [formatDuration, hs, h']
  · intro s h
    have h' : ptMatch s.data = some (0, 0) := h
    by_cases hs : s = ""
    · simp [formatDuration, hs]
    · simp [formatDuration, hs, h']

/-- Witness for C4-amended: `"xPTx"` contains `PT` with no components and
maps to `""`; `"1H30M"` has no `PT` and is returned unchanged. -/
theorem formatDuration_examples_and_fallthrough_witness :
    formatDuration "1H30M" = "1H30M" ∧ formatDuration "xPTx" = "" := by
  constructor
  · exact formatDuration_examples_and_fallthrough.2.2.2.2.1 "1H30M" (by decide)
  · exact formatDuration_examples_and_fallthrough.2.2.2.2.2 "xPTx" (by decide)

/-- **C6.** For every HTML payload longer than 50,000 characters the text
prepared for the generative extraction service is exactly the first 50,000
characters followed by the truncation marker — the appended marker occupies
exactly the final three positions, so it is appended exactly once, at the
end — and every payload of at most 50,000 characters is passed unchanged with
no marker appended. -/
theorem html_truncation_bound_and_marker (html : List Char) :
    (html.length > TRUNCATION_BOUND →
      truncatedHtml html = html.take TRUNCATION_BOUND ++ truncationMarker ∧
      (truncatedHtml html).length = TRUNCATION_BOUND + truncationMarker.length ∧
      (truncatedHtml html).drop TRUNCATION_BOUND = truncationMarker) ∧
    (html.length ≤ TRUNCATION_BOUND → truncatedHtml html = html) := by
  constructor
  · intro h
    have htake : (html.take TRUNCATION_BOUND).length = TRUNCATION_BOUND := by
      simp [List.length_take]
      omega
    refine ⟨by simp [truncatedHtml, h], ?_, ?_⟩
    · simp [truncatedHtml, h, List.length_append, htake]
    · have : (html.take TRUNCATION_BOUND ++ truncationMarker).drop TRUNCATION_BOUND
          = truncationMarker := by
        have := List.drop_left (html.take TRUNCATION_BOUND) truncationMarker
        rwa [htake] at this
      simp [truncatedHtml, h, this]
  · intro h
    simp [truncatedHtml]
    omega

/-- Witness for C6 at a concrete 50,001-character payload and a concrete
short payload. -/
theorem html_truncation_bound_and_marker_witness :
    truncatedHtml (List.replicate 50001 'a') =
      (List.replicate 50001 'a').take TRUNCATION_BOUND ++ truncationMarker ∧
    truncatedHtml ['h', 'i'] = ['h', 'i'] := by
  constructor
  · exact ((html_truncation_bound_and_marker (List.replicate 50001 'a')).1
      (by rw [List.length_replicate]; norm_num [TRUNCATION_BOUND])).1
  · exact (html_truncation_bound_and_marker ['h', 'i']).2
      (by norm_num [TRUNCATION_BOUND])

/-- **C7 counterexample.** The claim says `name` defaults to the placeholder
*only when absent*; but JS `||` also treats a present-but-empty `name` as
falsy, so a record with `name` present as `""` still gets the placeholder. -/
theorem validateRecipe_placeholder_on_present_empty_name_cex :
    (PartialRecipe.name ⟨some "", none, none, none, none, none, none, none, none, none⟩
        ≠ none) ∧
    (validateRecipe ⟨some "", none, none, none, none, none, none, none, none, none⟩).name
        = "Untitled Recipe" := by
  constructor
  · decide
  · rfl

/-- **C7 amended.** The normalizer is total on any partially populated recipe
object: every textual field is produced as a string, defaulting to `""` when
absent *or empty*; `name` defaults to the fixed placeholder when absent *or
present as the empty string* (not only when absent), and otherwise is kept;
`image_url` is absent — never the empty string — exactly when the input's
`image_url` is missing or empty. -/
theorem validateRecipe_total_defaults (r : PartialRecipe) :
    ((r.name = none ∨ r.name = some "") → (validateRecipe r).name = "Untitled Recipe") ∧
    (∀ s, s ≠ "" → r.name = some s → (validateRecipe r).name = s) ∧
    (r.ingredients = none → (validateRecipe r).ingredients = "") ∧
    (r.directions = none → (validateRecipe r).directions = "") ∧
    (r.prep_time = none → (validateRecipe r).prep_time = "") ∧
    (r.cook_time = none → (validateRecipe r).cook_time = "") ∧
    (r.servings = none → (validateRecipe r).servings = "") ∧
    (r.source = none → (validateRecipe r).source = "") ∧
    (r.source_url = none → (validateRecipe r).source_url = "") ∧
    (r.notes = none → (validateRecipe r).notes = "") ∧
    ((validateRecipe r).image_url = none ↔
      (r.image_url = none ∨ r.image_url = some "")) ∧
    (∀ s, (validateRecipe r).image_url = some s → s ≠ "") := by
  refine ⟨?_, ?_, ?_, ?_, ?_, ?_, ?_, ?_, ?_, ?_, ?_, ?_⟩
  · rintro (h | h)
    · show jsOrStr r.name "Untitled Recipe" = "Untitled Recipe"
      rw [h, jsOrStr_none]
    · show jsOrStr r.name "Untitled Recipe" = "Untitled Recipe"
      rw [h, jsOrStr_some_empty]
  · intro s hs h
    show jsOrStr r.name "Untitled Recipe" = s
    rw [h, jsOrStr_some s _ hs]
  · intro h
    show jsOrStr r.ingredients "" = ""
    rw [h, jsOrStr_none]
  · intro h
    show jsOrStr r.directions "" = ""
    rw [h, jsOrStr_none]
  · intro h
    show jsOrStr r.prep_time "" = ""
    rw [h, jsOrStr_none]
  · intro h
    show jsOrStr r.cook_time "" = ""
    rw [h, jsOrStr_none]
  · intro h
    show jsOrStr r.servings "" = ""
    rw [h, jsOrStr_none]
  · intro h
    show jsOrStr r.source "" = ""
    rw [h, jsOrStr_none]
  · intro h
    show jsOrStr r.source_url "" = ""
    rw [h, jsOrStr_none]
  · intro h
    show jsOrStr r.notes "" = ""
    rw [h, jsOrStr_none]
  · match hr : r.image_url with
    | none => simp [validateRecipe, hr]
    | some s =>
      by_cases hs : s = "" <;> simp [validateRecipe, hr, hs]
  · intro s h
    match hr : r.image_url with
    | none => simp [validateRecipe, hr] at h
    | some t =>
      by_cases ht : t = ""
      · simp [validateRecipe, hr, ht] at h
      · simp [validateRecipe, hr, ht] at h
        exact h ▸ ht

/-- Witness for C7-amended at a concrete record with empty `name` and empty
`image_url`. -/
theorem validateRecipe_total_defaults_witness :
    (validateRecipe
        ⟨some "", none, none, none, none, none, none, none, none, some ""⟩).name
      = "Untitled Recipe" ∧
    (validateRecipe
        ⟨some "", none, none, none, none, none, none, none, none, some ""⟩).image_url
      = none := by
  constructor
  · exact (validateRecipe_total_defaults
      ⟨some "", none, none, none, none, none, none, none, none, some ""⟩).1
      (Or.inr rfl)
  · exact (validateRecipe_total_defaults
      ⟨some "", none, none, none, none, none, none, none, none, some ""⟩).2.2.2.2.2.2.2.2.2.2.1.mpr
      (Or.inr rfl)

/-- **C3.** When the structured-data walk over the page's JSON-LD blocks
yields a recipe node whose ingredients or directions field is empty (in
particular: name and ingredients present but directions empty),
`extractFromURL` does not return that structured result directly and instead
invokes the generative extraction service on the (truncated) page HTML; the
structured result is returned without fallback exactly when both ingredients
and directions are non-empty. -/
theorem incomplete_structured_triggers_generative_fallback
    (parsedBlocks : List (Option Json)) (html : List Char) (url : String)
    (r : ExtractedRecipe)
    (hwalk : walkJsonLdBlocks url parsedBlocks none = some r) :
    ((r.ingredients = "" ∨ r.directions = "") →
      extractFromURLCore parsedBlocks html url = .generative (truncatedHtml html)) ∧
    (extractFromURLCore parsedBlocks html url = .structured r ↔
      (r.ingredients ≠ "" ∧ r.directions ≠ "")) := by
  have hcore : extractFromURLCore parsedBlocks html url =
      (if r.ingredients ≠ "" ∧ r.directions ≠ "" then .structured r
       else .generative (truncatedHtml html)) := by
    unfold extractFromURLCore
    rw [hwalk]
  constructor
  · intro h
    rw [hcore, if_neg]
    rintro ⟨h1, h2⟩
    rcases h with h | h
    · exact h1 h
    · exact h2 h
  · constructor
    · intro h
      by_cases hc : r.ingredients ≠ "" ∧ r.directions ≠ ""
      · exact hc
      · rw [hcore, if_neg hc] at h
        exact absurd h (by intro he; cases he)
    · intro hc
      rw [hcore, if_pos hc]

/-- A structured node with name and one ingredient but no instructions — the
walk yields it with empty `directions`. -/
def sampleIncompleteBlock : Json :=
  .obj [("@type", .str "Recipe"), ("name", .str "Pasta"),
        ("recipeIngredient", .arr [.str "noodles"])]

/-- Witness for C3 at a concrete incomplete JSON-LD block: the decision is
the generative fallback on the truncated HTML. -/
theorem incomplete_structured_triggers_generative_fallback_witness :
    extractFromURLCore [some sampleIncompleteBlock] "<html>".toList "https://x.com/r"
      = .generative (truncatedHtml "<html>".toList) :=
  (incomplete_structured_triggers_generative_fallback [some sampleIncompleteBlock]
    "<html>".toList "https://x.com/r"
    ⟨"Pasta", "noodles", "", "", "", "", "", "https://x.com/r", "", some ""⟩ rfl).1
    (Or.inr rfl)

/-- **C9 counterexample.** The claim says the parser extracts the *first
valid* brace-delimited JSON span and throws only when *no* such span yields
valid JSON.  But the regex span is the single greedy one (first opening
brace to last closing brace): on `x {a} y {"name":"n"} z` the greedy span
`{a} y {"name":"n"}` is invalid, so the parser throws — even though the
brace-delimited span `{"name":"n"}` occurs in the text and is valid JSON. -/
theorem greedy_span_reparse_not_first_valid_cex :
    parseRecipeResponseCore "x \x7ba\x7d y \x7b\"name\":\"n\"\x7d z".toList
      = .error .syntaxError ∧
    containsL "x \x7ba\x7d y \x7b\"name\":\"n\"\x7d z".toList
      "\x7b\"name\":\"n\"\x7d".toList = true ∧
    jsonParse "\x7b\"name\":\"n\"\x7d".toList = some (.obj [("name", .str "n")]) :=
  ⟨rfl, rfl, rfl⟩

/-- **C9 amended.** When the full trimmed response text is not valid JSON,
the parser re-parses the *single greedy* span running from the first opening
brace to the last closing brace (not the first valid span): the result is
exactly the parse of that one span — success iff the greedy span is valid
JSON, the uncaught JSON syntax error when it exists but is invalid (even if
a shorter brace-delimited span would parse), and the explicit
`Failed to parse recipe JSON` error quoting the first 200 characters when no
brace-enclosed span exists. -/
theorem recipe_response_uses_single_greedy_span (text : List Char)
    (hfull : jsonParse (jsTrim text) = none) :
    (∀ sp, braceSpan (jsTrim text) = some sp →
      parseRecipeResponseCore text =
        (match jsonParse sp with
         | some v => .ok v
         | none => .error .syntaxError)) ∧
    (braceSpan (jsTrim text) = none →
      parseRecipeResponseCore text = .error (.noJsonFound ((jsTrim text).take 200))) := by
  constructor
  · intro sp hsp
    unfold parseRecipeResponseCore
    rw [hfull, hsp]
  · intro hsp
    unfold parseRecipeResponseCore
    rw [hfull, hsp]

/-- Witness for C9-amended: prose around one valid object parses to that
object's parse via the greedy span. -/
theorem recipe_response_uses_single_greedy_span_witness :
    parseRecipeResponseCore "ok \x7b\"a\":1\x7d done".toList =
      (match jsonParse "\x7b\"a\":1\x7d".toList with
       | some v => .ok v
       | none => .error .syntaxError) :=
  (recipe_response_uses_single_greedy_span "ok \x7b\"a\":1\x7d done".toList rfl).1
    "\x7b\"a\":1\x7d".toList rfl

end SpiceBaby
